import Mathlib

/-!
Shallow embedding of the packet cache (src/packetcache/packetcache.go).

Go unsigned integers are modelled as Nat together with explicit reduction
modulo 2^16 (uint16) and 2^32 (uint32) at every operation where the Go
code can wrap.  Fixed byte arrays are modelled as lists of bytes holding
the written prefix of the array; a Go panic (index out of range, modulus
by zero) is modelled by returning none.
-/

namespace PacketCache

def M16 : Nat := 65536

def M32 : Nat := 4294967296

def BufSize : Nat := 1500

/-- Wrapping uint16 subtraction, the expression a - b on Go uint16 values. -/
def sub16 (a b : Nat) : Nat := (a % M16 + M16 - b % M16) % M16

/-- One ring slot; buf models the written prefix of the 1500-byte array. -/
structure Entry where
  seqno  : Nat
  length : Nat
  buf    : List Nat
deriving DecidableEq, Repr

def Entry.zero : Entry := { seqno := 0, length := 0, buf := [] }

/-- The cache state: stats fields, arrival bitmap, and the ring of entries. -/
structure Cache where
  last      : Nat
  cycle     : Nat
  lastValid : Bool
  expected  : Nat
  lost      : Nat
  totalLost : Nat
  first     : Nat
  bitmap    : Nat
  tail      : Nat
  entries   : List Entry
deriving DecidableEq, Repr

/-- func New(capacity int) *Cache; none models the nil return. -/
def New (capacity : Nat) : Option Cache :=
  if capacity > 65535 then none
  else some
    { last := 0, cycle := 0, lastValid := false, expected := 0, lost := 0,
      totalLost := 0, first := 0, bitmap := 0, tail := 0,
      entries := List.replicate capacity Entry.zero }

/-- func seqnoInvalid(seqno, reference uint16) bool. -/
def seqnoInvalid (seqno reference : Nat) : Bool :=
  if (sub16 seqno reference) &&& 0x8000 == 0 then false
  else if sub16 reference seqno > 0x100 then true
  else false

/-- func (cache *Cache) set(seqno uint16): the arrival-bitmap update. -/
def Cache.set (c : Cache) (seqno : Nat) : Cache :=
  if c.bitmap == 0 || seqnoInvalid seqno c.first then
    { c with first := seqno, bitmap := 1 }
  else if ((sub16 seqno c.first) &&& 0x8000) != 0 then
    c
  else if sub16 seqno c.first < 32 then
    { c with bitmap := (c.bitmap ||| ((1 <<< (sub16 seqno c.first)) % M32)) % M32 }
  else
    let shift := sub16 seqno c.first - 31
    let bitmap := c.bitmap >>> shift
    let first := (c.first + shift) % M16
    { c with first := first,
             bitmap := (bitmap ||| ((1 <<< (sub16 seqno first)) % M32)) % M32 }

/-- func (cache *Cache) Store(seqno uint16, buf ...) (uint16, uint16).
Returns the state after the call together with the two results
(cache.first and the slot index used); none models a panic (empty ring
or ring length a multiple of 2^16, where the Go index or modulus fails). -/
def Cache.Store (c : Cache) (seqno : Nat) (buf : List Nat) : Option (Cache × Nat × Nat) :=
  let c1 :=
    if !c.lastValid || seqnoInvalid seqno c.last then
      { c with last := seqno, lastValid := true,
               expected := (c.expected + 1) % M32 }
    else if ((sub16 c.last seqno) &&& 0x8000) != 0 then
      { c with expected := (c.expected + sub16 seqno c.last) % M32,
               lost := (c.lost + sub16 (sub16 seqno c.last) 1) % M32,
               cycle := if seqno < c.last then (c.cycle + 1) % M16 else c.cycle,
               last := seqno }
    else
      { c with lost := if c.lost > 0 then (c.lost + M32 - 1) % M32 else c.lost }
  let c2 := c1.set seqno
  let i := c2.tail
  if i < c2.entries.length ∧ c2.entries.length % M16 ≠ 0 then
    let e := c2.entries.getD i Entry.zero
    let ne : Entry :=
      { seqno := seqno, length := buf.length % M16,
        buf := buf.take BufSize ++ e.buf.drop (min buf.length BufSize) }
    let c3 := { c2 with entries := c2.entries.set i ne,
                        tail := (i + 1) % (c2.entries.length % M16) }
    some (c3, c3.first, i)
  else none

/-- func (cache *Cache) Expect(n int). -/
def Cache.Expect (c : Cache) (n : Int) : Cache :=
  if n ≤ 0 then c
  else { c with expected := (c.expected + n.toNat % M32) % M32 }

/-- func (cache *Cache) Get(seqno uint16, result ...) uint16: linear scan.
Returns the copied length together with the copied bytes. -/
def Cache.Get (c : Cache) (seqno : Nat) : Nat × List Nat :=
  match c.entries.find? (fun e => e.length != 0 && e.seqno == seqno) with
  | none => (0, [])
  | some e => (min e.length BufSize, e.buf.take (min e.length BufSize))

/-- func (cache *Cache) GetLast(result ...) uint16; none models the panic
on an empty ring. -/
def Cache.GetLast (c : Cache) : Option (Nat × List Nat) :=
  let i0 := sub16 c.tail 1
  let i := if i0 ≥ c.entries.length % M16 then 0 else i0
  match c.entries.get? i with
  | none => none
  | some e => some (min e.length BufSize, e.buf.take (min e.length BufSize))

/-- func (cache *Cache) GetAt(seqno, index uint16, result ...) uint16.
Mirrors the source bounds test, which uses a strict greater-than; an
access at index = length is the out-of-range panic, modelled as none. -/
def Cache.GetAt (c : Cache) (seqno index : Nat) : Option (Nat × List Nat) :=
  if index > c.entries.length then some (0, [])
  else
    match c.entries.get? index with
    | none => none
    | some e =>
      if e.seqno ≠ seqno then some (0, [])
      else some (min e.length BufSize, e.buf.take (min e.length BufSize))

/-- Go copy of src into the subslice arr[off:], overwriting in place. -/
def copyInto (arr : List Entry) (off : Nat) (src : List Entry) : List Entry :=
  arr.take off ++ src.take (arr.length - off)
    ++ arr.drop (off + min src.length (arr.length - off))

/-- func (cache *Cache) resize(capacity int). -/
def Cache.resize (c : Cache) (capacity : Nat) : Cache :=
  if c.entries.length == capacity then c
  else
    let entries := List.replicate capacity Entry.zero
    if capacity > c.entries.length then
      let e1 := copyInto entries 0 (c.entries.take c.tail)
      let e2 := copyInto e1 (c.tail + capacity - c.entries.length)
                  (c.entries.drop c.tail)
      { c with entries := e2 }
    else if capacity > c.tail then
      let e1 := copyInto entries 0 (c.entries.take c.tail)
      let e2 := copyInto e1 c.tail
                  (c.entries.drop (c.tail + c.entries.length - capacity))
      { c with entries := e2 }
    else
      let e1 := copyInto entries 0 ((c.entries.take c.tail).drop (c.tail - capacity))
      { c with entries := e1, tail := 0 }

/-- func (cache *Cache) Resize(capacity int). -/
def Cache.Resize (c : Cache) (capacity : Nat) : Cache :=
  c.resize capacity

/-- func (cache *Cache) ResizeCond(capacity int) bool. -/
def Cache.ResizeCond (c : Cache) (capacity : Nat) : Cache × Bool :=
  let current := c.entries.length
  if current ≥ capacity / 2 ∧ current < capacity * 2 then (c, false)
  else if c.tail > current / 2 ∧ c.tail > capacity / 2 then (c, false)
  else (c.resize capacity, true)

/-- The scan loop of BitmapGet: while bitmap has a clear low bit, shift
right by one and increment first as uint16.  The source loop runs only on
a nonzero bitmap; the extra nonzero guard makes the translation total. -/
def scanZeros (bitmap first : Nat) : Nat × Nat :=
  if h : bitmap ≠ 0 ∧ bitmap % 2 = 0 then
    scanZeros (bitmap / 2) ((first + 1) % M16)
  else (bitmap, first)
termination_by bitmap
decreasing_by exact Nat.div_lt_self (Nat.pos_of_ne_zero h.1) (by omega)

/-- func (cache *Cache) BitmapGet() (bool, uint16, uint16). -/
def Cache.BitmapGet (c : Cache) : Cache × (Bool × Nat × Nat) :=
  let first := c.first
  let bitmap := (c.bitmap ^^^ (M32 - 1)) &&& 0x1FFFF
  let c2 := { c with bitmap := c.bitmap >>> 17, first := (c.first + 17) % M16 }
  if bitmap = 0 then (c2, (false, first, 0))
  else
    let p := scanZeros bitmap first
    (c2, (true, p.2, (p.1 >>> 1) % M16))

/-- func (cache *Cache) GetStats(reset bool) (uint32, uint32, uint32, uint32). -/
def Cache.GetStats (c : Cache) (reset : Bool) : Cache × (Nat × Nat × Nat × Nat) :=
  let expected := c.expected
  let lost := c.lost
  let totalLost := (c.totalLost + c.lost) % M32
  let eseqno := (c.cycle <<< 16) ||| c.last
  let c2 :=
    if reset then
      { c with expected := 0, totalLost := (c.totalLost + c.lost) % M32, lost := 0 }
    else c
  (c2, (expected, lost, totalLost, eseqno))

/-- Count of trailing zero bits of a positive number (0 for 0 or odd). -/
def trailingZeroBits (n : Nat) : Nat :=
  if h : n ≠ 0 ∧ n % 2 = 0 then trailingZeroBits (n / 2) + 1 else 0
termination_by n
decreasing_by exact Nat.div_lt_self (Nat.pos_of_ne_zero h.1) (by omega)

/-- Field bounds that hold of every cache built by New and preserved by
every operation: each field stays within its Go integer type. -/
def Cache.WF (c : Cache) : Prop :=
  c.last < M16 ∧ c.cycle < M16 ∧ c.first < M16 ∧ c.tail < M16 ∧
  c.bitmap < M32 ∧ c.expected < M32 ∧ c.lost < M32 ∧ c.totalLost < M32

/-- One public operation of the cache, with its Go arguments. -/
inductive Op where
  | store (seqno : Nat) (buf : List Nat)
  | expect (n : Int)
  | get (seqno : Nat)
  | getLast
  | getAt (seqno index : Nat)
  | resize (capacity : Nat)
  | resizeCond (capacity : Nat)
  | bitmapGet
  | getStats (reset : Bool)

/-- State transition of one public operation; uint16 arguments are reduced
modulo 2^16 as the Go types force; none models a panic. -/
def applyOp (c : Cache) : Op → Option Cache
  | .store seqno buf => (c.Store (seqno % M16) buf).map Prod.fst
  | .expect n => some (c.Expect n)
  | .get _ => some c
  | .getLast => (c.GetLast).map (fun _ => c)
  | .getAt seqno index => (c.GetAt (seqno % M16) (index % M16)).map (fun _ => c)
  | .resize capacity => some (c.Resize capacity)
  | .resizeCond capacity => some (c.ResizeCond capacity).1
  | .bitmapGet => some (c.BitmapGet).1
  | .getStats reset => some (c.GetStats reset).1

/-- States reachable from a fresh cache by public operations. -/
inductive Reachable : Cache → Prop where
  | init : ∀ cap c, New cap = some c → Reachable c
  | step : ∀ c op c2, Reachable c → applyOp c op = some c2 → Reachable c2

/-- Sequencing helper: one Store on an optional cache, keeping the state. -/
def store1 (oc : Option Cache) (seqno : Nat) (buf : List Nat) : Option Cache :=
  oc.bind fun c => (c.Store seqno buf).map Prod.fst

/-- The fresh cache of capacity 4 (the value of New 4). -/
def fresh4 : Cache :=
  { last := 0, cycle := 0, lastValid := false, expected := 0, lost := 0,
    totalLost := 0, first := 0, bitmap := 0, tail := 0,
    entries := List.replicate 4 Entry.zero }

/-- Fresh cache of capacity 16 after storing seqnos 0, 1, 3, 2 in order. -/
def runC3 : Option Cache :=
  store1 (store1 (store1 (store1 (New 16) 0 [10]) 1 [11]) 3 [13]) 2 [12]

/-- Capacity 4, store seqnos 1..4 (filling slots 0..3), then Resize 8. -/
def runC4 : Option Cache :=
  (store1 (store1 (store1 (store1 (New 4) 1 [41]) 2 [42]) 3 [43]) 4 [44]).map
    (fun c => c.Resize 8)

/-- Capacity 2, store seqnos 10 then 11, leaving tail back at 0. -/
def runC5 : Option Cache :=
  store1 (store1 (New 2) 10 [1]) 11 [2]

/-- Concrete cache used to instantiate the BitmapGet theorem: window at
first = 10 with only the two lowest tracked seqnos arrived. -/
def cacheBitmap : Cache :=
  { last := 0, cycle := 0, lastValid := false, expected := 0, lost := 0,
    totalLost := 0, first := 10, bitmap := 3, tail := 0, entries := [] }

/-- The state after storing seqno 5 with a one-byte payload on fresh4. -/
def afterStore5 : Cache :=
  { last := 5, cycle := 0, lastValid := true, expected := 1, lost := 0,
    totalLost := 0, first := 5, bitmap := 1, tail := 1,
    entries := [{ seqno := 5, length := 1, buf := [1] },
                Entry.zero, Entry.zero, Entry.zero] }

/-- C1: the claim states that GetAt returns 0 (a miss) for every index at
or beyond the capacity and never panics.  The source bounds test is a
strict greater-than, so index equal to the capacity passes the test and
the slot access at that index aborts with an index-out-of-range panic
(modelled as none): on a fresh cache of capacity 4, GetAt with index 4
panics instead of returning 0. -/
theorem C1_getAt_at_capacity_panics :
    (New 4).map (fun c => c.GetAt 7 4) = some none := by decide

/-- C2 counterexample: the claim states that construction succeeds for
every capacity C with 1 ≤ C ≤ 65536; the source rejects every capacity
above 65535, so New at 65536 returns the nil sentinel. -/
theorem C2_counterexample : New 65536 = none := rfl

/-- C2 amended: construction fails, returning the nil sentinel with no
cache created, exactly when the requested capacity exceeds 65535 (the
largest 16-bit index); for every capacity C up to 65535 construction
succeeds and returns a cache whose ring has exactly C slots. -/
theorem C2_amended (C : Nat) :
    ((New C).isSome ↔ C ≤ 65535) ∧
    (New C).map (fun c => c.entries.length) =
      (if C ≤ 65535 then some C else none) := by
  unfold New
  split
  · constructor
    · simp
      omega
    · rw [if_neg (by omega)]
      simp
  · constructor
    · simp
      omega
    · rw [if_pos (by omega)]
      simp

/-- C3 counterexample: the claim states that storing seqnos 0, 1, 3, 2 on
a fresh cache leaves expected at 3; the run leaves expected at 4 (one for
the anchor 0, one for the advance to 1, two for the advance to 3). -/
theorem C3_counterexample : runC3.map (fun c => c.expected) ≠ some 3 := by decide

/-- C3 amended: starting from a fresh cache, storing sequence numbers
0, 1, 3 and then 2 leaves the counters at expected = 4 and lost = 0, the
tentative loss of one packet recorded at the 1 to 3 jump having been
retracted when the reordered packet 2 arrived. -/
theorem C3_amended : runC3.map (fun c => (c.expected, c.lost)) = some (4, 0) := by
  decide

/-- C4 counterexample: the claim states that after storing seqnos 1..4
into a capacity-4 cache (tail back at 0) and calling Resize 8, GetAt with
seqno 1 and index 0 still returns the original one-byte payload; it in
fact returns a miss (0 bytes), because with tail = 0 the grow branch
shifts the whole old ring by 4 positions, leaving slot 0 empty. -/
theorem C4_counterexample :
    runC4.map (fun c => c.GetAt 1 0) = some (some (0, [])) ∧
    runC4.map (fun c => c.GetAt 1 0) ≠ some (some (1, [41])) := by decide

/-- C4 amended: in the same scenario the grow branch moves the block at
positions tail..oldCapacity to the top of the new ring, so the payload
stored for seqno 1 now lives at slot 4: GetAt with index 0 is a miss and
GetAt with index 4 returns the original payload; tail is unchanged. -/
theorem C4_amended :
    runC4.map (fun c => (c.GetAt 1 0, c.GetAt 1 4, c.tail)) =
      some (some (0, []), some (1, [41]), 0) := by decide

/-- C5: the claim states that GetLast copies from the most recently
written slot, wrapping to capacity - 1 when tail = 0.  In the source the
wrapped index is clamped to 0 instead, so on a capacity-2 cache holding
seqno 10 in slot 0 and seqno 11 in slot 1 with tail = 0, GetLast returns
the payload of the oldest entry (slot 0, seqno 10) rather than the most
recent one (slot 1, seqno 11). -/
theorem C5_getLast_reads_slot_zero :
    runC5.map (fun c => (c.tail, c.GetLast, c.entries.get? 0, c.entries.get? 1)) =
      some (0, some (1, [1]),
        some { seqno := 10, length := 1, buf := [1] },
        some { seqno := 11, length := 1, buf := [2] }) := by decide

theorem and_msb_of_lt {x : Nat} (h : x < 0x8000) : x &&& 0x8000 = 0 := by
  rw [show (0x8000 : Nat) = 2 ^ 15 from by norm_num, Nat.and_two_pow,
    Nat.testBit_eq_false_of_lt (by norm_num at h ⊢; omega)]
  rfl

theorem and_msb_of_ge {x : Nat} (h1 : 0x8000 ≤ x) (h2 : x < M16) :
    x &&& 0x8000 ≠ 0 := by
  have hM : M16 = 65536 := rfl
  rw [show (0x8000 : Nat) = 2 ^ 15 from by norm_num, Nat.and_two_pow,
    Nat.testBit_to_div_mod]
  have hx : x / 2 ^ 15 = 1 := by
    rw [show (2 ^ 15 : Nat) = 32768 from by norm_num]
    omega
  rw [hx]
  simp

/-- C6: the half-range disambiguation rule of seqnoInvalid: equality and
every forward distance up to 0x7FFF are valid; backward distances up to
256 are valid; backward distances in (256, 0x7FFF] are invalid. -/
theorem C6_seqnoInvalid_ranges (r d : Nat) (hr : r < M16) :
    seqnoInvalid r r = false ∧
    (d ≤ 0x7FFF → seqnoInvalid ((r + d) % M16) r = false) ∧
    (d ≤ 0x100 → seqnoInvalid (sub16 r d) r = false) ∧
    (0x100 < d → d ≤ 0x7FFF → seqnoInvalid (sub16 r d) r = true) := by
  have hM : M16 = 65536 := rfl
  refine ⟨?_, fun hd => ?_, fun hd => ?_, fun hd1 hd2 => ?_⟩
  · have h0 : sub16 r r = 0 := by simp only [sub16, M16] at *; omega
    unfold seqnoInvalid
    rw [h0]
    rfl
  · have h1 : sub16 ((r + d) % M16) r = d := by simp only [sub16, M16] at *; omega
    unfold seqnoInvalid
    rw [h1, if_pos]
    simp only [beq_iff_eq]
    exact and_msb_of_lt (by omega)
  · rcases Nat.eq_zero_or_pos d with h | h
    · subst h
      have h0 : sub16 (sub16 r 0) r = 0 := by simp only [sub16, M16] at *; omega
      unfold seqnoInvalid
      rw [h0]
      rfl
    · have h1 : sub16 (sub16 r d) r = M16 - d := by
        simp only [sub16, M16] at *; omega
      have h2 : sub16 r (sub16 r d) = d := by simp only [sub16, M16] at *; omega
      unfold seqnoInvalid
      rw [h1, h2, if_neg, if_neg]
      · omega
      · simp only [beq_iff_eq]
        exact and_msb_of_ge (by omega) (by omega)
  · have h1 : sub16 (sub16 r d) r = M16 - d := by
      simp only [sub16, M16] at *; omega
    have h2 : sub16 r (sub16 r d) = d := by simp only [sub16, M16] at *; omega
    unfold seqnoInvalid
    rw [h1, h2, if_neg, if_pos]
    · omega
    · simp only [beq_iff_eq]
      exact and_msb_of_ge (by omega) (by omega)

/-- Witness for C6 at reference 100 with forward distance 300, backward
distance 256 (valid) and backward distance 257 (invalid). -/
theorem C6_witness :
    (100 < M16) ∧
    seqnoInvalid 100 100 = false ∧
    seqnoInvalid ((100 + 300) % M16) 100 = false ∧
    seqnoInvalid (sub16 100 256) 100 = false ∧
    seqnoInvalid (sub16 100 257) 100 = true := by
  have h1 := C6_seqnoInvalid_ranges 100 300 (by decide)
  have h2 := C6_seqnoInvalid_ranges 100 256 (by decide)
  have h3 := C6_seqnoInvalid_ranges 100 257 (by decide)
  exact ⟨by decide, h1.1, h1.2.1 (by decide), h2.2.2.1 (by decide),
    h3.2.2.2 (by decide) (by decide)⟩

theorem trailingZeroBits_even {n : Nat} (h1 : n ≠ 0) (h2 : n % 2 = 0) :
    trailingZeroBits n = trailingZeroBits (n / 2) + 1 := by
  conv_lhs => rw [trailingZeroBits.eq_def]
  rw [dif_pos ⟨h1, h2⟩]

theorem trailingZeroBits_odd {n : Nat} (h2 : n % 2 ≠ 0) :
    trailingZeroBits n = 0 := by
  rw [trailingZeroBits.eq_def, dif_neg]
  intro h
  exact h2 h.2

theorem scanZeros_spec (b : Nat) : ∀ f, b ≠ 0 → f < M16 →
    scanZeros b f =
      (b >>> trailingZeroBits b, (f + trailingZeroBits b) % M16) := by
  induction b using Nat.strong_induction_on with
  | _ b ih =>
    intro f hb hf
    by_cases h2 : b % 2 = 0
    · have hb2 : b / 2 ≠ 0 := by omega
      rw [scanZeros.eq_def, dif_pos ⟨hb, h2⟩,
        ih (b / 2) (by omega) ((f + 1) % M16) hb2 (Nat.mod_lt _ (by decide)),
        trailingZeroBits_even hb h2]
      simp only [Prod.mk.injEq]
      constructor
      · rw [Nat.shiftRight_eq_div_pow, Nat.shiftRight_eq_div_pow,
          Nat.div_div_eq_div_mul, pow_succ, mul_comm 2 (2 ^ trailingZeroBits (b / 2))]
      · simp only [M16] at *
        omega
    · rw [scanZeros.eq_def, dif_neg (fun h => h2 h.2), trailingZeroBits_odd h2]
      simp [Nat.mod_eq_of_lt hf]

/-- C7: BitmapGet computes missing as the complement of the bitmap limited
to 17 bits, always drains the window (bitmap shifted right by 17, first
advanced by 17); on missing = 0 it reports no loss with the pre-drain
first and mask 0, and otherwise reports loss at the pre-drain first plus
the count of trailing zero bits of missing, with follow-up mask missing
shifted right by that count plus one, reduced to 16 bits. -/
theorem C7_bitmapGet_spec (c : Cache) (hf : c.first < M16) :
    ((c.BitmapGet).1.bitmap = c.bitmap >>> 17 ∧
     (c.BitmapGet).1.first = (c.first + 17) % M16) ∧
    (((c.bitmap ^^^ (M32 - 1)) &&& 0x1FFFF) = 0 →
      (c.BitmapGet).2 = (false, c.first, 0)) ∧
    (((c.bitmap ^^^ (M32 - 1)) &&& 0x1FFFF) ≠ 0 →
      (c.BitmapGet).2 =
        (true,
         (c.first +
            trailingZeroBits ((c.bitmap ^^^ (M32 - 1)) &&& 0x1FFFF)) % M16,
         (((c.bitmap ^^^ (M32 - 1)) &&& 0x1FFFF) >>>
            (trailingZeroBits ((c.bitmap ^^^ (M32 - 1)) &&& 0x1FFFF) + 1))
           % M16)) := by
  by_cases hm : ((c.bitmap ^^^ (M32 - 1)) &&& 0x1FFFF) = 0
  · have hb : c.BitmapGet =
        ({ c with bitmap := c.bitmap >>> 17, first := (c.first + 17) % M16 },
         (false, c.first, 0)) := by
      simp only [Cache.BitmapGet]
      rw [if_pos hm]
    rw [hb]
    exact ⟨⟨rfl, rfl⟩, fun _ => rfl, fun h => absurd hm h⟩
  · have hb : c.BitmapGet =
        ({ c with bitmap := c.bitmap >>> 17, first := (c.first + 17) % M16 },
         (true, (scanZeros ((c.bitmap ^^^ (M32 - 1)) &&& 0x1FFFF) c.first).2,
          ((scanZeros ((c.bitmap ^^^ (M32 - 1)) &&& 0x1FFFF) c.first).1 >>> 1)
            % M16)) := by
      simp only [Cache.BitmapGet]
      rw [if_neg hm]
    rw [hb]
    refine ⟨⟨rfl, rfl⟩, fun h => absurd h hm, fun h => ?_⟩
    rw [scanZeros_spec _ _ hm hf, ← Nat.shiftRight_add]

/-- Witness for C7 at a concrete cache with bitmap 3 and first 10, whose
missing mask is nonzero with two trailing zero bits. -/
theorem C7_witness :
    cacheBitmap.first < M16 ∧
    ((cacheBitmap.bitmap ^^^ (M32 - 1)) &&& 0x1FFFF) ≠ 0 ∧
    (cacheBitmap.BitmapGet).2 =
      (true,
       (cacheBitmap.first +
          trailingZeroBits ((cacheBitmap.bitmap ^^^ (M32 - 1)) &&& 0x1FFFF)) % M16,
       (((cacheBitmap.bitmap ^^^ (M32 - 1)) &&& 0x1FFFF) >>>
          (trailingZeroBits ((cacheBitmap.bitmap ^^^ (M32 - 1)) &&& 0x1FFFF) + 1))
         % M16) :=
  ⟨by decide, by decide,
    (C7_bitmapGet_spec cacheBitmap (by decide)).2.2 (by decide)⟩

/-- C8: GetStats returns the quadruple (expected, lost, totalLost + lost,
extended seqno) computed from the pre-call state; with reset it zeroes
expected and lost after folding lost into totalLost, so a subsequent call
with no intervening operation reports the same cumulative total. -/
theorem C8_getStats_spec (c : Cache) (reset r2 : Bool) :
    (c.GetStats reset).2 =
      (c.expected, c.lost, (c.totalLost + c.lost) % M32,
        (c.cycle <<< 16) ||| c.last) ∧
    (c.GetStats false).1 = c ∧
    (c.GetStats true).1.expected = 0 ∧
    (c.GetStats true).1.lost = 0 ∧
    (c.GetStats true).1.totalLost = (c.totalLost + c.lost) % M32 ∧
    ((c.GetStats true).1.GetStats r2).2.2.2.1 = (c.GetStats true).2.2.2.1 := by
  refine ⟨rfl, rfl, rfl, rfl, rfl, ?_⟩
  show ((c.totalLost + c.lost) % M32 + 0) % M32 = (c.totalLost + c.lost) % M32
  simp only [M32]
  omega

theorem mod_mod16_lt (a b : Nat) (h : b % M16 ≠ 0) : a % (b % M16) < M16 :=
  Nat.lt_trans (Nat.mod_lt _ (Nat.pos_of_ne_zero h)) (Nat.mod_lt _ (by decide))

theorem set_frame (c : Cache) (seqno : Nat) :
    (c.set seqno).lost = c.lost ∧ (c.set seqno).totalLost = c.totalLost ∧
    (c.set seqno).expected = c.expected ∧ (c.set seqno).last = c.last ∧
    (c.set seqno).cycle = c.cycle ∧ (c.set seqno).tail = c.tail ∧
    (c.set seqno).entries = c.entries ∧
    (c.set seqno).lastValid = c.lastValid := by
  unfold Cache.set
  split_ifs <;> exact ⟨rfl, rfl, rfl, rfl, rfl, rfl, rfl, rfl⟩

theorem resize_frame (c : Cache) (capacity : Nat) :
    (c.resize capacity).lost = c.lost ∧
    (c.resize capacity).totalLost = c.totalLost := by
  unfold Cache.resize
  split_ifs <;> exact ⟨rfl, rfl⟩

theorem wf_set {c : Cache} (h : c.WF) {seqno : Nat} (hs : seqno < M16) :
    (c.set seqno).WF := by
  obtain ⟨h1, h2, h3, h4, h5, h6, h7, h8⟩ := h
  unfold Cache.set
  split_ifs
  · exact ⟨h1, h2, hs, h4, (show (1:Nat) < M32 by decide), h6, h7, h8⟩
  · exact ⟨h1, h2, h3, h4, h5, h6, h7, h8⟩
  · exact ⟨h1, h2, h3, h4, Nat.mod_lt _ (by decide), h6, h7, h8⟩
  · exact ⟨h1, h2, Nat.mod_lt _ (by decide), h4, Nat.mod_lt _ (by decide),
      h6, h7, h8⟩

theorem store_wf {c : Cache} {seqno : Nat} {buf : List Nat}
    {r : Cache × Nat × Nat} (h : c.WF) (hs : seqno < M16)
    (hr : c.Store seqno buf = some r) : r.1.WF := by
  obtain ⟨h1, h2, h3, h4, h5, h6, h7, h8⟩ := h
  simp only [Cache.Store] at hr
  by_cases hA : (!c.lastValid || seqnoInvalid seqno c.last) = true
  · rw [if_pos hA] at hr
    have hXwf :=
      @wf_set { c with last := seqno, lastValid := true, expected := (c.expected + 1) % M32 }
        ⟨hs, h2, h3, h4, h5, Nat.mod_lt _ (by decide), h7, h8⟩ seqno hs
    obtain ⟨g1, g2, g3, g4, g5, g6, g7, g8⟩ := hXwf
    split at hr
    · rename_i hcond
      injection hr with hinj
      subst hinj
      exact ⟨g1, g2, g3, mod_mod16_lt _ _ hcond.2, g5, g6, g7, g8⟩
    · exact Option.noConfusion hr
  · rw [if_neg hA] at hr
    by_cases hB : ((sub16 c.last seqno) &&& 0x8000 != 0) = true
    · rw [if_pos hB] at hr
      by_cases hC : seqno < c.last
      · rw [if_pos hC] at hr
        have hXwf :=
          @wf_set { c with expected := (c.expected + sub16 seqno c.last) % M32, lost := (c.lost + sub16 (sub16 seqno c.last) 1) % M32, cycle := (c.cycle + 1) % M16, last := seqno }
            ⟨hs, Nat.mod_lt _ (by decide), h3, h4, h5,
              Nat.mod_lt _ (by decide), Nat.mod_lt _ (by decide), h8⟩ seqno hs
        obtain ⟨g1, g2, g3, g4, g5, g6, g7, g8⟩ := hXwf
        split at hr
        · rename_i hcond
          injection hr with hinj
          subst hinj
          exact ⟨g1, g2, g3, mod_mod16_lt _ _ hcond.2, g5, g6, g7, g8⟩
        · exact Option.noConfusion hr
      · rw [if_neg hC] at hr
        have hXwf :=
          @wf_set { c with expected := (c.expected + sub16 seqno c.last) % M32, lost := (c.lost + sub16 (sub16 seqno c.last) 1) % M32, cycle := c.cycle, last := seqno }
            ⟨hs, h2, h3, h4, h5,
              Nat.mod_lt _ (by decide), Nat.mod_lt _ (by decide), h8⟩ seqno hs
        obtain ⟨g1, g2, g3, g4, g5, g6, g7, g8⟩ := hXwf
        split at hr
        · rename_i hcond
          injection hr with hinj
          subst hinj
          exact ⟨g1, g2, g3, mod_mod16_lt _ _ hcond.2, g5, g6, g7, g8⟩
        · exact Option.noConfusion hr
    · rw [if_neg hB] at hr
      by_cases hG : c.lost > 0
      · rw [if_pos hG] at hr
        have hXwf :=
          @wf_set { c with lost := (c.lost + M32 - 1) % M32 }
            ⟨h1, h2, h3, h4, h5, h6, Nat.mod_lt _ (by decide), h8⟩ seqno hs
        obtain ⟨g1, g2, g3, g4, g5, g6, g7, g8⟩ := hXwf
        split at hr
        · rename_i hcond
          injection hr with hinj
          subst hinj
          exact ⟨g1, g2, g3, mod_mod16_lt _ _ hcond.2, g5, g6, g7, g8⟩
        · exact Option.noConfusion hr
      · rw [if_neg hG] at hr
        have hXwf :=
          @wf_set { c with lost := c.lost }
            ⟨h1, h2, h3, h4, h5, h6, h7, h8⟩ seqno hs
        obtain ⟨g1, g2, g3, g4, g5, g6, g7, g8⟩ := hXwf
        split at hr
        · rename_i hcond
          injection hr with hinj
          subst hinj
          exact ⟨g1, g2, g3, mod_mod16_lt _ _ hcond.2, g5, g6, g7, g8⟩
        · exact Option.noConfusion hr

theorem resize_wf {c : Cache} (h : c.WF) (capacity : Nat) :
    (c.resize capacity).WF := by
  obtain ⟨h1, h2, h3, h4, h5, h6, h7, h8⟩ := h
  unfold Cache.resize
  split_ifs
  · exact ⟨h1, h2, h3, h4, h5, h6, h7, h8⟩
  · exact ⟨h1, h2, h3, h4, h5, h6, h7, h8⟩
  · exact ⟨h1, h2, h3, h4, h5, h6, h7, h8⟩
  · exact ⟨h1, h2, h3, (show (0:Nat) < M16 by decide), h5, h6, h7, h8⟩

theorem new_wf {cap : Nat} {c : Cache} (h : New cap = some c) : c.WF := by
  unfold New at h
  split at h
  · exact Option.noConfusion h
  · injection h with hinj
    subst hinj
    exact ⟨(show (0:Nat) < M16 by decide), (show (0:Nat) < M16 by decide),
      (show (0:Nat) < M16 by decide), (show (0:Nat) < M16 by decide),
      (show (0:Nat) < M32 by decide), (show (0:Nat) < M32 by decide),
      (show (0:Nat) < M32 by decide), (show (0:Nat) < M32 by decide)⟩

theorem applyOp_wf {c : Cache} (h : c.WF) {op : Op} {c2 : Cache}
    (ha : applyOp c op = some c2) : c2.WF := by
  obtain ⟨h1, h2, h3, h4, h5, h6, h7, h8⟩ := h
  cases op with
  | store seqno buf =>
    simp only [applyOp, Option.map_eq_some'] at ha
    obtain ⟨r, hr, hc⟩ := ha
    subst hc
    exact store_wf ⟨h1, h2, h3, h4, h5, h6, h7, h8⟩
      (Nat.mod_lt _ (by decide)) hr
  | expect n =>
    injection ha with hinj
    subst hinj
    unfold Cache.Expect
    split_ifs
    · exact ⟨h1, h2, h3, h4, h5, h6, h7, h8⟩
    · exact ⟨h1, h2, h3, h4, h5, Nat.mod_lt _ (by decide), h7, h8⟩
  | get s =>
    injection ha with hinj
    subst hinj
    exact ⟨h1, h2, h3, h4, h5, h6, h7, h8⟩
  | getLast =>
    simp only [applyOp, Option.map_eq_some'] at ha
    obtain ⟨a, _, hc⟩ := ha
    subst hc
    exact ⟨h1, h2, h3, h4, h5, h6, h7, h8⟩
  | getAt s i =>
    simp only [applyOp, Option.map_eq_some'] at ha
    obtain ⟨a, _, hc⟩ := ha
    subst hc
    exact ⟨h1, h2, h3, h4, h5, h6, h7, h8⟩
  | resize cap =>
    injection ha with hinj
    subst hinj
    exact resize_wf ⟨h1, h2, h3, h4, h5, h6, h7, h8⟩ cap
  | resizeCond cap =>
    injection ha with hinj
    subst hinj
    simp only [Cache.ResizeCond]
    split_ifs
    · exact ⟨h1, h2, h3, h4, h5, h6, h7, h8⟩
    · exact ⟨h1, h2, h3, h4, h5, h6, h7, h8⟩
    · exact resize_wf ⟨h1, h2, h3, h4, h5, h6, h7, h8⟩ cap
  | bitmapGet =>
    injection ha with hinj
    subst hinj
    have hb : c.bitmap >>> 17 < M32 := by
      have := Nat.div_le_self c.bitmap (2 ^ 17)
      rw [Nat.shiftRight_eq_div_pow]
      omega
    simp only [Cache.BitmapGet]
    split_ifs
    · exact ⟨h1, h2, Nat.mod_lt _ (by decide), h4, hb, h6, h7, h8⟩
    · exact ⟨h1, h2, Nat.mod_lt _ (by decide), h4, hb, h6, h7, h8⟩
  | getStats reset =>
    injection ha with hinj
    subst hinj
    cases reset
    · exact ⟨h1, h2, h3, h4, h5, h6, h7, h8⟩
    · exact ⟨h1, h2, h3, h4, h5, (show (0:Nat) < M32 by decide),
        (show (0:Nat) < M32 by decide), Nat.mod_lt _ (by decide)⟩

theorem reachable_wf {c : Cache} (h : Reachable c) : c.WF := by
  induction h with
  | init cap c hc => exact new_wf hc
  | step c op c2 _ hstep ih => exact applyOp_wf ih hstep

set_option maxHeartbeats 1000000 in
set_option maxRecDepth 8000 in
theorem store_lost {c : Cache} {seqno : Nat} {buf : List Nat}
    {r : Cache × Nat × Nat} (h : c.WF) (_hs : seqno < M16)
    (hr : c.Store seqno buf = some r) :
    (r.1.lost = c.lost ∨ (0 < c.lost ∧ r.1.lost = c.lost - 1) ∨
      ∃ g, 1 ≤ g ∧ g < M16 ∧ r.1.lost = (c.lost + (g - 1)) % M32) ∧
    r.1.totalLost = c.totalLost := by
  obtain ⟨h1, h2, h3, h4, h5, h6, h7, h8⟩ := h
  simp only [Cache.Store] at hr
  by_cases hA : (!c.lastValid || seqnoInvalid seqno c.last) = true
  · rw [if_pos hA] at hr
    split at hr
    · injection hr with hinj
      subst hinj
      exact ⟨Or.inl (set_frame _ _).1, (set_frame _ _).2.1⟩
    · exact Option.noConfusion hr
  · rw [if_neg hA] at hr
    by_cases hB : ((sub16 c.last seqno) &&& 0x8000 != 0) = true
    · rw [if_pos hB] at hr
      have hg0 : sub16 c.last seqno ≠ 0 := by
        intro h0
        rw [h0] at hB
        simp at hB
      have hg1 : 1 ≤ sub16 seqno c.last := by
        simp only [sub16, M16] at *
        omega
      have hg2 : sub16 seqno c.last < M16 := Nat.mod_lt _ (by decide)
      have hg3 : sub16 (sub16 seqno c.last) 1 = sub16 seqno c.last - 1 := by
        simp only [sub16, M16] at *
        omega
      by_cases hC : seqno < c.last
      · rw [if_pos hC] at hr
        split at hr
        · injection hr with hinj
          subst hinj
          exact ⟨Or.inr (Or.inr ⟨sub16 seqno c.last, hg1, hg2,
              (set_frame _ _).1.trans (by rw [← hg3])⟩),
            (set_frame _ _).2.1⟩
        · exact Option.noConfusion hr
      · rw [if_neg hC] at hr
        split at hr
        · injection hr with hinj
          subst hinj
          exact ⟨Or.inr (Or.inr ⟨sub16 seqno c.last, hg1, hg2,
              (set_frame _ _).1.trans (by rw [← hg3])⟩),
            (set_frame _ _).2.1⟩
        · exact Option.noConfusion hr
    · rw [if_neg hB] at hr
      by_cases hG : c.lost > 0
      · rw [if_pos hG] at hr
        split at hr
        · injection hr with hinj
          subst hinj
          refine ⟨Or.inr (Or.inl ⟨hG, (set_frame _ _).1.trans ?_⟩),
            (set_frame _ _).2.1⟩
          dsimp only
          simp only [M32] at h7 ⊢
          omega
        · exact Option.noConfusion hr
      · rw [if_neg hG] at hr
        split at hr
        · injection hr with hinj
          subst hinj
          exact ⟨Or.inl (set_frame _ _).1, (set_frame _ _).2.1⟩
        · exact Option.noConfusion hr

/-- C9: along every sequence of public operations from a fresh cache, the
lost and totalLost counters never wrap below zero: every step either
leaves lost unchanged, decrements it by exactly one under the explicit
positivity guard, adds gap - 1 for a forward gap of at least 1, or (on a
stats reset) transfers lost into totalLost and zeroes it; totalLost is
only ever increased by lost, never subtracted from. -/
theorem C9_no_underflow (c : Cache) (hre : Reachable c) (op : Op)
    (c2 : Cache) (hstep : applyOp c op = some c2) :
    (c2.lost = c.lost ∧ c2.totalLost = c.totalLost) ∨
    (0 < c.lost ∧ c2.lost = c.lost - 1 ∧ c2.totalLost = c.totalLost) ∨
    (∃ g, 1 ≤ g ∧ g < M16 ∧ c2.lost = (c.lost + (g - 1)) % M32 ∧
      c2.totalLost = c.totalLost) ∨
    (c2.lost = 0 ∧ c2.totalLost = (c.totalLost + c.lost) % M32) := by
  have hw := reachable_wf hre
  cases op with
  | store seqno buf =>
    simp only [applyOp, Option.map_eq_some'] at hstep
    obtain ⟨r, hr, hc⟩ := hstep
    subst hc
    have hsl := store_lost hw (Nat.mod_lt _ (by decide)) hr
    rcases hsl.1 with h | h | h
    · exact Or.inl ⟨h, hsl.2⟩
    · exact Or.inr (Or.inl ⟨h.1, h.2, hsl.2⟩)
    · obtain ⟨g, hg1, hg2, hg3⟩ := h
      exact Or.inr (Or.inr (Or.inl ⟨g, hg1, hg2, hg3, hsl.2⟩))
  | expect n =>
    injection hstep with hinj
    subst hinj
    unfold Cache.Expect
    split_ifs <;> exact Or.inl ⟨rfl, rfl⟩
  | get s =>
    injection hstep with hinj
    subst hinj
    exact Or.inl ⟨rfl, rfl⟩
  | getLast =>
    simp only [applyOp, Option.map_eq_some'] at hstep
    obtain ⟨a, _, hc⟩ := hstep
    subst hc
    exact Or.inl ⟨rfl, rfl⟩
  | getAt s i =>
    simp only [applyOp, Option.map_eq_some'] at hstep
    obtain ⟨a, _, hc⟩ := hstep
    subst hc
    exact Or.inl ⟨rfl, rfl⟩
  | resize cap =>
    injection hstep with hinj
    subst hinj
    exact Or.inl ⟨(resize_frame c cap).1, (resize_frame c cap).2⟩
  | resizeCond cap =>
    injection hstep with hinj
    subst hinj
    simp only [Cache.ResizeCond]
    split_ifs
    · exact Or.inl ⟨rfl, rfl⟩
    · exact Or.inl ⟨rfl, rfl⟩
    · exact Or.inl ⟨(resize_frame c cap).1, (resize_frame c cap).2⟩
  | bitmapGet =>
    injection hstep with hinj
    subst hinj
    simp only [Cache.BitmapGet]
    split_ifs <;> exact Or.inl ⟨rfl, rfl⟩
  | getStats reset =>
    injection hstep with hinj
    subst hinj
    cases reset
    · exact Or.inl ⟨rfl, rfl⟩
    · exact Or.inr (Or.inr (Or.inr ⟨rfl, rfl⟩))

/-- Witness for C9 on the reachable fresh cache of capacity 4 taking one
Store step. -/
theorem C9_witness :
    afterStore5.totalLost = fresh4.totalLost ∨
    afterStore5.totalLost = (fresh4.totalLost + fresh4.lost) % M32 := by
  have h := C9_no_underflow fresh4 (Reachable.init 4 fresh4 rfl)
    (Op.store 5 [1]) afterStore5 (by decide)
  rcases h with ⟨hl, ht⟩ | ⟨hp, hl, ht⟩ | ⟨g, hg1, hg2, hl, ht⟩ | ⟨hl, ht⟩
  · exact Or.inl ht
  · exact Or.inl ht
  · exact Or.inl ht
  · exact Or.inr ht

/-- C10: Expect with a nonpositive count leaves the whole state unchanged,
including expected; with a positive count it adds exactly n to expected
as a 32-bit (modulo 2^32) addition, exactly n over the naturals when no
32-bit overflow occurs, and changes no other field. -/
theorem C10_expect_spec (c : Cache) (n : Int) :
    (n ≤ 0 → c.Expect n = c) ∧
    (0 < n → c.Expect n =
      { c with expected := (c.expected + n.toNat) % M32 }) ∧
    (0 < n → c.expected + n.toNat < M32 →
      (c.Expect n).expected = c.expected + n.toNat) := by
  refine ⟨fun hn => ?_, fun hn => ?_, fun hn hlt => ?_⟩
  · unfold Cache.Expect
    rw [if_pos hn]
  · have harith : (c.expected + n.toNat % M32) % M32 =
        (c.expected + n.toNat) % M32 := by
      simp only [M32]
      omega
    unfold Cache.Expect
    rw [if_neg (by omega), harith]
  · unfold Cache.Expect
    rw [if_neg (by omega)]
    dsimp only
    simp only [M32] at hlt ⊢
    omega

/-- Witness for C10 at the fresh capacity-4 cache with count 2. -/
theorem C10_witness :
    0 < (2:Int) ∧
    fresh4.Expect 2 =
      { fresh4 with expected := (fresh4.expected + (2:Int).toNat) % M32 } ∧
    fresh4.expected + (2:Int).toNat < M32 ∧
    (fresh4.Expect 2).expected = fresh4.expected + (2:Int).toNat :=
  ⟨by decide, (C10_expect_spec fresh4 2).2.1 (by decide),
   by decide, (C10_expect_spec fresh4 2).2.2 (by decide) (by decide)⟩

end PacketCache
